import Mathlib

/-!
Verification of the PopPUNK network-refine core (`src/src/python_bindings.cpp`
and the `boundary.hpp` routines it wraps).

The visible source is the binding layer: it validates the sortedness
preconditions and forwards to the native routines `assign_threshold`,
`threshold_iterate_1D` and `threshold_iterate_2D`, whose bodies are not part
of the visible sources.  Those routines are modelled here from the
specification (boundary classifier, committed/pending incremental sweeps,
row-range thread partitioning); each such definition carries a
`Modelled from the spec:` doc comment.  Distance coordinates are modelled as
rationals.
-/

namespace PopPunk

/-- One entry of the condensed distance matrix: the unordered sample pair
(row, col) together with its two distance coordinates (x = core distance,
y = accessory distance). -/
structure PairEntry where
  row : Nat
  col : Nat
  x : ℚ
  y : ℚ
deriving DecidableEq

/-- Translated from `src/src/python_bindings.cpp` (`std::is_sorted` on the
offset / x_max sequences): true iff no element is strictly smaller than its
predecessor, i.e. the sequence is non-decreasing.  Empty and singleton
sequences are sorted. -/
def is_sorted : List ℚ → Bool
  | [] => true
  | [_] => true
  | a :: b :: rest => decide (a ≤ b) && is_sorted (b :: rest)

/-- The half-open slice `[a, b)` of a list. -/
def slice (l : List α) (a b : Nat) : List α := (l.drop a).take (b - a)

/-- Concatenation of a list of buffers (thread-local buffers merged in
thread order, never interleaved). -/
def concatAll : List (List α) → List α
  | [] => []
  | xs :: rest => xs ++ concatAll rest

/-- The contiguous chunk of the index range owned by worker `c` out of `t`
workers: the slice `[c·n/t, (c+1)·n/t)` of the work list. -/
def chunk (t : Nat) (l : List α) (c : Nat) : List α :=
  slice l (c * l.length / t) ((c + 1) * l.length / t)

/-- Modelled from the spec: the embarrassingly parallel map of §4.1/§5 —
the pair range is partitioned into `t` disjoint contiguous chunks, each
worker maps its chunk into a thread-local buffer, and the buffers are
concatenated in worker order. -/
def threadedMap (t : Nat) (f : α → β) (l : List α) : List β :=
  concatAll ((List.range t).map (fun c => (chunk t l c).map f))

/-- Modelled from the spec: the row-partitioned scan of §4.2/§9 — each of
the `t` workers filters its own contiguous chunk, and the thread-local
buffers are concatenated in worker order. -/
def threadedFilter (t : Nat) (p : α → Bool) (l : List α) : List α :=
  concatAll ((List.range t).map (fun c => (chunk t l c).filter p))

/-- Modelled from the spec: the boundary-classification test of §4.1 — a
pair lies inside the cluster-forming region iff its (x, y) distance is
strictly on the origin side of the straight line through (x_max, 0) and
(0, y_max); a point exactly on the line is outside (fixed tie-break,
cf. §8/§9). -/
def insideBoundary (x_max y_max : ℚ) (p : PairEntry) : Bool :=
  decide (p.x * y_max + p.y * x_max < x_max * y_max)

/-- Modelled from the spec: `assign_threshold` (`boundary.hpp`, body not in
the visible sources) — invalid geometry (x_max ≤ 0 or y_max ≤ 0) is rejected
eagerly before any classification (§4.1/§7); otherwise the classifier is
mapped over the pair range, partitioned across `num_threads` workers.  The
spec fixes the boundary convention only for slope = -1 (the straight line),
and that convention is applied here to every slope value. -/
def assign_threshold (distMat : List PairEntry) (slope : Int) (x_max y_max : ℚ)
    (num_threads : Nat) : Except String (List Bool) :=
  if x_max ≤ 0 ∨ y_max ≤ 0 then
    Except.error "Invalid boundary geometry"
  else
    Except.ok (threadedMap num_threads (insideBoundary x_max y_max) distMat)

/-- Translated from `src/src/python_bindings.cpp`: `assignThreshold` forwards
to `assign_threshold` unchanged. -/
def assignThreshold (distMat : List PairEntry) (slope : Int) (x_max y_max : ℚ)
    (num_threads : Nat) : Except String (List Bool) :=
  assign_threshold distMat slope x_max y_max num_threads

/-- Modelled from the spec: the 1D sweep inclusion test of §4.2 — a pair is
inside once the boundary segment (x0,y0)-(x1,y1), displaced by `offset`
along its normal, has passed over the pair's (x, y) point; modelled as the
sign of the cross product against the displaced segment, with the
displacement scaled by the squared segment length (the spec fixes the
displacement direction but not the normalisation of the normal, which would
require a square root; this scaling is monotone in the offset, which is the
property the sweep relies on). -/
def inside1D (x0 y0 x1 y1 : ℚ) (offset : ℚ) (p : PairEntry) : Bool :=
  decide ((x1 - x0) * (p.y - y0) - (y1 - y0) * (p.x - x0) <
    offset * ((x1 - x0) ^ 2 + (y1 - y0) ^ 2))

/-- The entries of the condensed matrix tagged with their pair index,
starting from index `n` (the per-pair arena of §9, in index order). -/
def indexPairs (n : Nat) : List PairEntry → List (Nat × PairEntry)
  | [] => []
  | p :: rest => (n, p) :: indexPairs (n + 1) rest

/-- Modelled from the spec: the shared committed/pending sweep of §4.2/§4.3
(single-worker reference version) — at each threshold the still-pending
pairs are scanned in index order; the newly included ones are committed and
emitted with the current step index, the others stay pending.  Events are
(pair index, entry) paired with the step of first inclusion. -/
def sweepPure (ins : ℚ → PairEntry → Bool) :
    List ℚ → Nat → List (Nat × PairEntry) → List ((Nat × PairEntry) × Nat)
  | [], _, _ => []
  | th :: rest, k, pending =>
    (pending.filter (fun ip => ins th ip.2)).map (fun ip => (ip, k)) ++
      sweepPure ins rest (k + 1) (pending.filter (fun ip => ! ins th ip.2))

/-- Modelled from the spec: the committed/pending sweep with the per-step
scan partitioned across `t` workers (§4.2 parallelism), thread-local
buffers concatenated in worker order. -/
def sweepAux (ins : ℚ → PairEntry → Bool) (t : Nat) :
    List ℚ → Nat → List (Nat × PairEntry) → List ((Nat × PairEntry) × Nat)
  | [], _, _ => []
  | th :: rest, k, pending =>
    (threadedFilter t (fun ip => ins th ip.2) pending).map (fun ip => (ip, k)) ++
      sweepAux ins t rest (k + 1) (pending.filter (fun ip => ! ins th ip.2))

/-- Modelled from the spec: `threshold_iterate_1D` (`boundary.hpp`, body not
in the visible sources) — sweep the segment boundary through the offset
sequence, committing each pair at the first offset that includes it. -/
def threshold_iterate_1D (distMat : List PairEntry) (offsets : List ℚ)
    (slope : Int) (x0 y0 x1 y1 : ℚ) (num_threads : Nat) :
    List ((Nat × PairEntry) × Nat) :=
  sweepAux (inside1D x0 y0 x1 y1) num_threads offsets 0 (indexPairs 0 distMat)

/-- Modelled from the spec: `threshold_iterate_2D` (`boundary.hpp`, body not
in the visible sources) — the boundary is recomputed per step from
(x_max[i], y_max); no thread count is exposed at this interface, so a single
worker scans. -/
def threshold_iterate_2D (distMat : List PairEntry) (x_maxs : List ℚ)
    (y_max : ℚ) : List ((Nat × PairEntry) × Nat) :=
  sweepAux (fun xm p => insideBoundary xm y_max p) 1 x_maxs 0
    (indexPairs 0 distMat)

/-- The `network_coo` view of a sweep's event list: the (row, col, step)
triples, i.e. the three parallel output arrays zipped together. -/
def networkCoo (ev : List ((Nat × PairEntry) × Nat)) : List (Nat × Nat × Nat) :=
  ev.map (fun e => (e.1.2.row, e.1.2.col, e.2))

/-- Translated from `src/src/python_bindings.cpp`: `thresholdIterate1D`
throws before any sweep computation when the offsets are not sorted. -/
def thresholdIterate1D (distMat : List PairEntry) (offsets : List ℚ)
    (slope : Int) (x0 y0 x1 y1 : ℚ) (num_threads : Nat) :
    Except String (List (Nat × Nat × Nat)) :=
  if ! is_sorted offsets then
    Except.error "Offsets to thresholdIterate1D must be sorted"
  else
    Except.ok (networkCoo
      (threshold_iterate_1D distMat offsets slope x0 y0 x1 y1 num_threads))

/-- Translated from `src/src/python_bindings.cpp`: `thresholdIterate2D`
throws before any sweep computation when the x_max range is not sorted. -/
def thresholdIterate2D (distMat : List PairEntry) (x_maxs : List ℚ)
    (y_max : ℚ) : Except String (List (Nat × Nat × Nat)) :=
  if ! is_sorted x_maxs then
    Except.error "x_max range to thresholdIterate2D must be sorted"
  else
    Except.ok (networkCoo (threshold_iterate_2D distMat x_maxs y_max))

/-- The position in the threshold sequence at which a pair is first
included, if any (specification device for the sweep theorems). -/
def firstHit (ins : ℚ → PairEntry → Bool) (p : PairEntry) : List ℚ → Option Nat
  | [] => none
  | th :: rest => if ins th p then some 0 else (firstHit ins p rest).map (· + 1)

theorem slice_append (l : List α) {a b c : Nat} (hab : a ≤ b) (hbc : b ≤ c) :
    slice l a b ++ slice l b c = slice l a c := by
  unfold slice
  have hd : (l.drop a).drop (b - a) = l.drop b := by
    rw [List.drop_drop]
    congr 1
    omega
  rw [← hd, ← List.take_add]
  congr 1
  omega

theorem concatAll_slices (l : List α) (c : Nat → Nat)
    (hc : ∀ i, c i ≤ c (i + 1)) :
    ∀ (t i : Nat),
      concatAll ((List.range' i t).map (fun j => slice l (c j) (c (j + 1)))) =
        slice l (c i) (c (i + t)) := by
  intro t
  induction t with
  | zero =>
    intro i
    simp [concatAll, slice]
  | succ n ih =>
    intro i
    rw [List.range'_succ]
    simp only [List.map_cons, concatAll]
    rw [ih (i + 1)]
    have hmono : Monotone c := monotone_nat_of_le_succ hc
    rw [slice_append l (hc i) (hmono (by omega : i + 1 ≤ i + 1 + n))]
    have he : i + 1 + n = i + (n + 1) := by omega
    rw [he]

theorem concatAll_map (f : α → β) :
    ∀ L : List (List α), concatAll (L.map (List.map f)) = (concatAll L).map f := by
  intro L
  induction L with
  | nil => simp [concatAll]
  | cons xs rest ih => simp [concatAll, ih]

theorem concatAll_filter (p : α → Bool) :
    ∀ L : List (List α),
      concatAll (L.map (List.filter p)) = (concatAll L).filter p := by
  intro L
  induction L with
  | nil => simp [concatAll]
  | cons xs rest ih => simp [concatAll, ih]

theorem concatAll_chunks (t : Nat) (l : List α) (ht : 1 ≤ t) :
    concatAll ((List.range t).map (fun c => chunk t l c)) = l := by
  have hc : ∀ i, i * l.length / t ≤ (i + 1) * l.length / t := fun i =>
    Nat.div_le_div_right (Nat.mul_le_mul_right _ (Nat.le_succ i))
  have h := concatAll_slices l (fun i => i * l.length / t) hc t 0
  simp only [Nat.zero_add] at h
  rw [List.range_eq_range']
  simp only [chunk]
  rw [h]
  have h0 : 0 * l.length / t = 0 := by simp
  have hT : t * l.length / t = l.length := Nat.mul_div_cancel_left _ ht
  rw [h0, hT]
  simp [slice, List.take_length]

theorem threadedMap_eq_map (t : Nat) (f : α → β) (l : List α) (ht : 1 ≤ t) :
    threadedMap t f l = l.map f := by
  unfold threadedMap
  have h : (List.range t).map (fun c => (chunk t l c).map f)
      = ((List.range t).map (fun c => chunk t l c)).map (List.map f) := by
    rw [List.map_map]
    rfl
  rw [h, concatAll_map, concatAll_chunks t l ht]

theorem threadedFilter_eq_filter (t : Nat) (p : α → Bool) (l : List α)
    (ht : 1 ≤ t) : threadedFilter t p l = l.filter p := by
  unfold threadedFilter
  have h : (List.range t).map (fun c => (chunk t l c).filter p)
      = ((List.range t).map (fun c => chunk t l c)).map (List.filter p) := by
    rw [List.map_map]
    rfl
  rw [h, concatAll_filter, concatAll_chunks t l ht]

theorem sweepAux_eq_sweepPure (ins : ℚ → PairEntry → Bool) (t : Nat)
    (ht : 1 ≤ t) :
    ∀ (ths : List ℚ) (k : Nat) (pending : List (Nat × PairEntry)),
      sweepAux ins t ths k pending = sweepPure ins ths k pending := by
  intro ths
  induction ths with
  | nil => intro k pending; rfl
  | cons th rest ih =>
    intro k pending
    simp only [sweepAux, sweepPure, threadedFilter_eq_filter _ _ _ ht, ih]

theorem mem_sweepPure (ins : ℚ → PairEntry → Bool) (i : Nat) (p : PairEntry) :
    ∀ (ths : List ℚ) (k0 k : Nat) (pending : List (Nat × PairEntry)),
      ((i, p), k) ∈ sweepPure ins ths k0 pending ↔
        (i, p) ∈ pending ∧ k0 ≤ k ∧ firstHit ins p ths = some (k - k0) := by
  intro ths
  induction ths with
  | nil =>
    intro k0 k pending
    simp [sweepPure, firstHit]
  | cons th rest ih =>
    intro k0 k pending
    constructor
    · intro hmem
      simp only [sweepPure] at hmem
      rcases List.mem_append.mp hmem with h1 | h2
      · rcases List.mem_map.mp h1 with ⟨ip, hip, heq⟩
        have hip1 : ip = (i, p) := congrArg Prod.fst heq
        have hk : k0 = k := congrArg Prod.snd heq
        subst hip1
        rcases List.mem_filter.mp hip with ⟨hpend, hkeep⟩
        simp only at hkeep
        refine ⟨hpend, by omega, ?_⟩
        simp only [firstHit, if_pos hkeep, Option.some.injEq]
        omega
      · have h3 := (ih (k0 + 1) k _).mp h2
        rcases h3 with ⟨hpend', hk, hfh⟩
        rcases List.mem_filter.mp hpend' with ⟨hpend, hnk⟩
        simp only [Bool.not_eq_true'] at hnk
        refine ⟨hpend, by omega, ?_⟩
        rw [firstHit, if_neg (by simp [hnk]), hfh]
        simp only [Option.map_some', Option.some.injEq]
        omega
    · rintro ⟨hpend, hk, hfh⟩
      simp only [sweepPure]
      rw [firstHit] at hfh
      apply List.mem_append.mpr
      cases hins : ins th p with
      | true =>
        rw [if_pos (by rw [hins])] at hfh
        have h0 : (0 : Nat) = k - k0 := Option.some.inj hfh
        have hkk : k = k0 := by omega
        subst hkk
        left
        apply List.mem_map.mpr
        exact ⟨(i, p), List.mem_filter.mpr ⟨hpend, by simp [hins]⟩, rfl⟩
      | false =>
        rw [if_neg (by simp [hins])] at hfh
        rcases Option.map_eq_some'.mp hfh with ⟨m, hm, hmk⟩
        right
        apply (ih (k0 + 1) k _).mpr
        refine ⟨List.mem_filter.mpr ⟨hpend, by simp [hins]⟩, by omega, ?_⟩
        rw [hm]
        congr 1
        omega

theorem firstHit_eq_none (ins : ℚ → PairEntry → Bool) (p : PairEntry) :
    ∀ ths : List ℚ, firstHit ins p ths = none ↔ ∀ th ∈ ths, ins th p = false := by
  intro ths
  induction ths with
  | nil => simp [firstHit]
  | cons th rest ih =>
    cases hins : ins th p with
    | false => simp [firstHit, hins, ih, Option.map_eq_none']
    | true => simp [firstHit, hins]

theorem firstHit_spec (ins : ℚ → PairEntry → Bool) (p : PairEntry) :
    ∀ (ths : List ℚ) (k : Nat), firstHit ins p ths = some k →
      (∃ th, ths.get? k = some th ∧ ins th p = true) ∧
      (∀ j th, j < k → ths.get? j = some th → ins th p = false) := by
  intro ths
  induction ths with
  | nil => intro k h; simp [firstHit] at h
  | cons th rest ih =>
    intro k h
    cases hins : ins th p with
    | true =>
      rw [firstHit, if_pos (by rw [hins])] at h
      have h0 : (0 : Nat) = k := Option.some.inj h
      subst h0
      refine ⟨⟨th, rfl, hins⟩, ?_⟩
      intro j th' hj
      omega
    | false =>
      rw [firstHit, if_neg (by simp [hins])] at h
      rcases Option.map_eq_some'.mp h with ⟨m, hm, hmk⟩
      rcases ih m hm with ⟨⟨th', hget, hth'⟩, hbefore⟩
      subst hmk
      constructor
      · exact ⟨th', by simpa using hget, hth'⟩
      · intro j th2 hj hget2
        cases j with
        | zero =>
          have hth2 : th = th2 := by simpa using hget2
          rw [← hth2]
          exact hins
        | succ j' =>
          exact hbefore j' th2 (by omega) (by simpa using hget2)

theorem mem_indexPairs (i : Nat) (x : PairEntry) :
    ∀ (l : List PairEntry) (n : Nat),
      (i, x) ∈ indexPairs n l ↔ n ≤ i ∧ l.get? (i - n) = some x := by
  intro l
  induction l with
  | nil => intro n; simp [indexPairs]
  | cons p rest ih =>
    intro n
    simp only [indexPairs, List.mem_cons, ih (n + 1), Prod.mk.injEq]
    constructor
    · rintro (⟨rfl, rfl⟩ | ⟨hn, hget⟩)
      · simp
      · refine ⟨by omega, ?_⟩
        have he : i - n = (i - (n + 1)) + 1 := by omega
        rw [he, List.get?_cons_succ]
        exact hget
    · rintro ⟨hn, hget⟩
      rcases Nat.eq_or_lt_of_le hn with heq | hlt
      · have h0 : i - n = 0 := by omega
        rw [h0, List.get?_cons_zero] at hget
        left
        exact ⟨by omega, (Option.some.inj hget).symm⟩
      · right
        have he : i - n = (i - (n + 1)) + 1 := by omega
        rw [he, List.get?_cons_succ] at hget
        exact ⟨by omega, hget⟩

theorem indexPairs_pairwise :
    ∀ (l : List PairEntry) (n : Nat),
      (indexPairs n l).Pairwise (fun a b => a.1 < b.1) := by
  intro l
  induction l with
  | nil => intro n; simp [indexPairs]
  | cons p rest ih =>
    intro n
    simp only [indexPairs, List.pairwise_cons]
    refine ⟨?_, ih (n + 1)⟩
    rintro ⟨j, q⟩ hmem
    obtain ⟨h1, -⟩ := (mem_indexPairs j q rest (n + 1)).mp hmem
    show n < j
    omega

theorem sweepPure_subset (ins : ℚ → PairEntry → Bool) (ths : List ℚ) (k0 : Nat)
    (pending : List (Nat × PairEntry)) :
    ∀ e ∈ sweepPure ins ths k0 pending, e.1 ∈ pending ∧ k0 ≤ e.2 := by
  rintro ⟨⟨i, p⟩, k⟩ hmem
  have h := (mem_sweepPure ins i p ths k0 k pending).mp hmem
  exact ⟨h.1, h.2.1⟩

theorem sweepPure_pairwise_idx (ins : ℚ → PairEntry → Bool) :
    ∀ (ths : List ℚ) (k0 : Nat) (pending : List (Nat × PairEntry)),
      pending.Pairwise (fun a b => a.1 ≠ b.1) →
      (sweepPure ins ths k0 pending).Pairwise (fun e e' => e.1.1 ≠ e'.1.1) := by
  intro ths
  induction ths with
  | nil => intro k0 pending h; simp [sweepPure]
  | cons th rest ih =>
    intro k0 pending h
    simp only [sweepPure]
    rw [List.pairwise_append]
    refine ⟨?_, ih (k0 + 1) _ (h.filter _), ?_⟩
    · rw [List.pairwise_map]
      exact h.filter _
    · rintro e he e' he'
      rcases List.mem_map.mp he with ⟨ip, hip, rfl⟩
      have h2 := (sweepPure_subset ins rest (k0 + 1) _ e' he').1
      rcases List.mem_filter.mp hip with ⟨hip_mem, hip_keep⟩
      rcases List.mem_filter.mp h2 with ⟨h2_mem, h2_keep⟩
      show ip.1 ≠ e'.1.1
      by_cases hip_eq : ip = e'.1
      · rw [hip_eq] at hip_keep
        simp only [Bool.not_eq_true'] at h2_keep
        rw [h2_keep] at hip_keep
        exact absurd hip_keep (by simp)
      · have hsymm : Symmetric (fun a b : Nat × PairEntry => a.1 ≠ b.1) :=
          fun a b hab => hab.symm
        exact List.Pairwise.forall hsymm h hip_mem h2_mem hip_eq

theorem sweepPure_step_ordered (ins : ℚ → PairEntry → Bool) :
    ∀ (ths : List ℚ) (k0 : Nat) (pending : List (Nat × PairEntry)),
      pending.Pairwise (fun a b => a.1 < b.1) →
      (sweepPure ins ths k0 pending).Pairwise
        (fun e e' => e.2 = e'.2 → e.1.1 < e'.1.1) := by
  intro ths
  induction ths with
  | nil => intro k0 pending h; simp [sweepPure]
  | cons th rest ih =>
    intro k0 pending h
    simp only [sweepPure]
    rw [List.pairwise_append]
    refine ⟨?_, ih (k0 + 1) _ (h.filter _), ?_⟩
    · rw [List.pairwise_map]
      exact (h.filter _).imp (fun hab => fun _ => hab)
    · rintro e he e' he'
      rcases List.mem_map.mp he with ⟨ip, hip, rfl⟩
      have h2 := (sweepPure_subset ins rest (k0 + 1) _ e' he').2
      intro hstep
      have hk : k0 = e'.2 := hstep
      omega

theorem is_sorted_le_getLast :
    ∀ l : List ℚ, is_sorted l = true →
      ∀ x ∈ l, ∀ m, l.getLast? = some m → x ≤ m := by
  intro l
  induction l with
  | nil => intro h x hx; simp at hx
  | cons a tail ih =>
    intro h x hx m hm
    cases tail with
    | nil =>
      have hx1 : x = a := by simpa using hx
      have hm1 : a = m := by simpa using hm
      rw [hx1, ← hm1]
    | cons b tail' =>
      simp only [is_sorted, Bool.and_eq_true, decide_eq_true_eq] at h
      rw [List.getLast?_cons_cons] at hm
      rcases List.mem_cons.mp hx with rfl | hx'
      · have hb : b ≤ m := ih h.2 b (List.mem_cons_self b _) m hm
        exact le_trans h.1 hb
      · exact ih h.2 x hx' m hm

theorem is_sorted_false_iff :
    ∀ l : List ℚ, is_sorted l = false ↔
      ∃ j a b, l.get? j = some a ∧ l.get? (j + 1) = some b ∧ b < a := by
  intro l
  induction l with
  | nil =>
    constructor
    · intro h; simp [is_sorted] at h
    · rintro ⟨j, x, y, h1, h2, h3⟩
      simp at h1
  | cons a tail ih =>
    cases tail with
    | nil =>
      constructor
      · intro h; simp [is_sorted] at h
      · rintro ⟨j, x, y, h1, h2, h3⟩
        have hnone : ([a] : List ℚ).get? (j + 1) = none :=
          List.get?_eq_none.mpr (by simp)
        rw [hnone] at h2
        exact Option.noConfusion h2
    | cons b tail' =>
      simp only [is_sorted, Bool.and_eq_false_iff, decide_eq_false_iff_not,
        not_le, ih]
      constructor
      · rintro (hba | ⟨j, x, y, h1, h2, h3⟩)
        · exact ⟨0, a, b, rfl, rfl, hba⟩
        · exact ⟨j + 1, x, y, by simpa using h1, by simpa using h2, h3⟩
      · rintro ⟨j, x, y, h1, h2, h3⟩
        cases j with
        | zero =>
          left
          have hx : a = x := by simpa using h1
          have hy : b = y := by simpa using h2
          rw [hx, hy]
          exact h3
        | succ j' =>
          right
          exact ⟨j', x, y, by simpa using h1, by simpa using h2, h3⟩

theorem insideBoundary_mono {xm xm' ym : ℚ} (p : PairEntry) (hx : 0 ≤ p.x)
    (hxm : 0 < xm) (hym : 0 ≤ ym) (hle : xm ≤ xm')
    (h : insideBoundary xm ym p = true) : insideBoundary xm' ym p = true := by
  simp only [insideBoundary, decide_eq_true_eq] at h ⊢
  have hy : p.y < ym := by nlinarith [mul_nonneg hx hym]
  nlinarith [mul_nonneg (sub_nonneg.mpr hle) (sub_nonneg.mpr (le_of_lt hy))]

theorem pairwise_of_get? {R : PairEntry → PairEntry → Prop}
    (hsym : ∀ a b, R a b → R b a) {l : List PairEntry}
    (h : l.Pairwise R) {i j : Nat} {x y : PairEntry}
    (hi : l.get? i = some x) (hj : l.get? j = some y) (hij : i ≠ j) :
    R x y := by
  rcases List.get?_eq_some.mp hi with ⟨hi', hx⟩
  rcases List.get?_eq_some.mp hj with ⟨hj', hy⟩
  rcases Nat.lt_or_ge i j with hlt | hge
  · have hr := List.pairwise_iff_get.mp h ⟨i, hi'⟩ ⟨j, hj'⟩ hlt
    rw [hx, hy] at hr
    exact hr
  · have hlt2 : j < i := by omega
    have hr := List.pairwise_iff_get.mp h ⟨j, hj'⟩ ⟨i, hi'⟩ hlt2
    rw [hx, hy] at hr
    exact hsym _ _ hr

theorem networkCoo_pairwise (ins : ℚ → PairEntry → Bool)
    (distMat : List PairEntry)
    (hrc : distMat.Pairwise (fun p q => p.row ≠ q.row ∨ p.col ≠ q.col))
    (ths : List ℚ) :
    (networkCoo (sweepPure ins ths 0 (indexPairs 0 distMat))).Pairwise
      (fun u v => (u.1, u.2.1) ≠ (v.1, v.2.1)) := by
  unfold networkCoo
  rw [List.pairwise_map]
  have hidx : (sweepPure ins ths 0 (indexPairs 0 distMat)).Pairwise
      (fun e e' => e.1.1 ≠ e'.1.1) :=
    sweepPure_pairwise_idx ins ths 0 _
      ((indexPairs_pairwise distMat 0).imp (fun hab => Nat.ne_of_lt hab))
  apply List.Pairwise.imp_of_mem _ hidx
  intro a b ha hb hne
  have hma := (sweepPure_subset ins ths 0 _ a ha).1
  have hmb := (sweepPure_subset ins ths 0 _ b hb).1
  rcases a with ⟨⟨i, p⟩, k⟩
  rcases b with ⟨⟨i', p'⟩, k'⟩
  have hga := (mem_indexPairs i p distMat 0).mp hma
  have hgb := (mem_indexPairs i' p' distMat 0).mp hmb
  simp only [Nat.sub_zero] at hga hgb
  have hne' : i ≠ i' := hne
  have hdiff : p.row ≠ p'.row ∨ p.col ≠ p'.col :=
    pairwise_of_get? (fun a b hab => hab.imp Ne.symm Ne.symm) hrc
      hga.2 hgb.2 hne'
  show (p.row, p.col) ≠ (p'.row, p'.col)
  intro heq
  rw [Prod.mk.injEq] at heq
  rcases hdiff with hd | hd
  · exact hd heq.1
  · exact hd heq.2

/-- Claim C1: calling sweep1D (`thresholdIterate1D`) with an offsets
sequence that is not sorted ascending, or sweep2D (`thresholdIterate2D`)
with an x_max sequence that is not sorted ascending, fails with an error
before any sweep computation and produces no output. -/
theorem sweep_unsorted_rejected (distMat : List PairEntry) (offsets : List ℚ)
    (slope : Int) (x0 y0 x1 y1 : ℚ) (t : Nat) (d2 : List PairEntry)
    (xms : List ℚ) (ym : ℚ)
    (h1 : is_sorted offsets = false) (h2 : is_sorted xms = false) :
    thresholdIterate1D distMat offsets slope x0 y0 x1 y1 t =
        Except.error "Offsets to thresholdIterate1D must be sorted" ∧
      thresholdIterate2D d2 xms ym =
        Except.error "x_max range to thresholdIterate2D must be sorted" := by
  constructor
  · simp [thresholdIterate1D, h1]
  · simp [thresholdIterate2D, h2]

/-- Witness for C1 at the spec's concrete inputs: offsets = [0.5, 0.2]
(unsorted) and x_max = [2.0, 1.0] (unsorted) are both rejected. -/
theorem sweep_unsorted_rejected_witness :
    is_sorted [mkRat 1 2, mkRat 1 5] = false ∧
    is_sorted [mkRat 2 1, mkRat 1 1] = false ∧
    (thresholdIterate1D [] [mkRat 1 2, mkRat 1 5] (-1) 0 0 1 1 1 =
        Except.error "Offsets to thresholdIterate1D must be sorted" ∧
      thresholdIterate2D [] [mkRat 2 1, mkRat 1 1] (mkRat 1 5) =
        Except.error "x_max range to thresholdIterate2D must be sorted") :=
  ⟨by decide, by decide,
    sweep_unsorted_rejected [] [mkRat 1 2, mkRat 1 5] (-1) 0 0 1 1 1
      [] [mkRat 2 1, mkRat 1 1] (mkRat 1 5) (by decide) (by decide)⟩

/-- Claim C2: classify (`assignThreshold`) with invalid boundary geometry
(x_max ≤ 0 or y_max ≤ 0) is rejected eagerly with an error before any
classification is computed. -/
theorem classify_invalid_geometry_rejected (distMat : List PairEntry)
    (slope : Int) (x_max y_max : ℚ) (t : Nat)
    (h : x_max ≤ 0 ∨ y_max ≤ 0) :
    assignThreshold distMat slope x_max y_max t =
      Except.error "Invalid boundary geometry" := by
  unfold assignThreshold assign_threshold
  rw [if_pos h]

/-- Witness for C2: x_max = 0 is rejected. -/
theorem classify_invalid_geometry_rejected_witness :
    ((0 : ℚ) ≤ 0 ∨ (mkRat 1 5 : ℚ) ≤ 0) ∧
    assignThreshold [] (-1) 0 (mkRat 1 5) 1 =
      Except.error "Invalid boundary geometry" :=
  ⟨Or.inl (le_refl 0),
    classify_invalid_geometry_rejected [] (-1) 0 (mkRat 1 5) 1
      (Or.inl (le_refl 0))⟩

/-- Claim C10: the sortedness check is non-strict: equal adjacent values
pass (e.g. [0.1, 0.1, 0.2]), empty and singleton sequences always pass, and
the check fails exactly when some adjacent step strictly decreases. -/
theorem is_sorted_non_strict :
    is_sorted [mkRat 1 10, mkRat 1 10, mkRat 1 5] = true ∧
    is_sorted [] = true ∧
    (∀ x : ℚ, is_sorted [x] = true) ∧
    (∀ l : List ℚ, is_sorted l = false ↔
      ∃ j a b, l.get? j = some a ∧ l.get? (j + 1) = some b ∧ b < a) :=
  ⟨by decide, rfl, fun _ => rfl, is_sorted_false_iff⟩

/-- Claim C7: classify is thread-count invariant: any two thread counts ≥ 1
produce identical membership vectors on the same inputs. -/
theorem classify_thread_invariant (distMat : List PairEntry) (slope : Int)
    (x_max y_max : ℚ) (t1 t2 : Nat) (h1 : 1 ≤ t1) (h2 : 1 ≤ t2) :
    assignThreshold distMat slope x_max y_max t1 =
      assignThreshold distMat slope x_max y_max t2 := by
  unfold assignThreshold assign_threshold
  by_cases h : x_max ≤ 0 ∨ y_max ≤ 0
  · rw [if_pos h, if_pos h]
  · rw [if_neg h, if_neg h, threadedMap_eq_map _ _ _ h1,
      threadedMap_eq_map _ _ _ h2]

/-- Witness for C7: thread counts 1 and 4 agree on a concrete matrix. -/
theorem classify_thread_invariant_witness :
    1 ≤ 1 ∧ 1 ≤ 4 ∧
    assignThreshold [⟨0, 1, mkRat 1 10, mkRat 1 20⟩] (-1) (mkRat 1 5)
        (mkRat 1 5) 1 =
      assignThreshold [⟨0, 1, mkRat 1 10, mkRat 1 20⟩] (-1) (mkRat 1 5)
        (mkRat 1 5) 4 :=
  ⟨by decide, by decide,
    classify_thread_invariant [⟨0, 1, mkRat 1 10, mkRat 1 20⟩] (-1)
      (mkRat 1 5) (mkRat 1 5) 1 4 (by decide) (by decide)⟩

/-- Claim C6: a successful classify returns one membership flag per pair of
the input matrix, in the same order. -/
theorem classify_length (distMat : List PairEntry) (slope : Int)
    (x_max y_max : ℚ) (t : Nat) (v : List Bool) (ht : 1 ≤ t)
    (h : assignThreshold distMat slope x_max y_max t = Except.ok v) :
    v.length = distMat.length ∧
      ∀ i, v.get? i =
        (distMat.get? i).map (fun p => insideBoundary x_max y_max p) := by
  unfold assignThreshold assign_threshold at h
  by_cases hg : x_max ≤ 0 ∨ y_max ≤ 0
  · rw [if_pos hg] at h
    exact Except.noConfusion h
  · rw [if_neg hg, threadedMap_eq_map _ _ _ ht] at h
    have hv : v = distMat.map (insideBoundary x_max y_max) :=
      (Except.ok.inj h).symm
    subst hv
    exact ⟨List.length_map _ _, fun i => List.get?_map _ _ i⟩

/-- Witness for C6 on a concrete two-pair matrix. -/
theorem classify_length_witness :
    1 ≤ 1 ∧
    assignThreshold
        [⟨0, 1, mkRat 1 10, mkRat 1 20⟩, ⟨0, 2, mkRat 3 10, mkRat 2 5⟩]
        (-1) (mkRat 1 5) (mkRat 1 5) 1 = Except.ok [true, false] ∧
    (([true, false] : List Bool).length =
        ([⟨0, 1, mkRat 1 10, mkRat 1 20⟩,
          ⟨0, 2, mkRat 3 10, mkRat 2 5⟩] : List PairEntry).length ∧
      ∀ i, ([true, false] : List Bool).get? i =
        (([⟨0, 1, mkRat 1 10, mkRat 1 20⟩,
          ⟨0, 2, mkRat 3 10, mkRat 2 5⟩] : List PairEntry).get? i).map
          (fun p => insideBoundary (mkRat 1 5) (mkRat 1 5) p)) :=
  ⟨by decide, by with_unfolding_all rfl,
    classify_length
      [⟨0, 1, mkRat 1 10, mkRat 1 20⟩, ⟨0, 2, mkRat 3 10, mkRat 2 5⟩]
      (-1) (mkRat 1 5) (mkRat 1 5) 1 [true, false] (by decide)
      (by with_unfolding_all rfl)⟩

/-- Claim C9: the spec's concrete scenario: pairs (0,1) = (0.1, 0.05),
(0,2) = (0.3, 0.4), (1,2) = (0.05, 0.01) with slope = -1, x_max = 0.2,
y_max = 0.2 classify as inside, outside, inside (0.1 = mkRat 1 10 and so
on). -/
theorem classify_concrete_scenario :
    assignThreshold
        [⟨0, 1, mkRat 1 10, mkRat 1 20⟩, ⟨0, 2, mkRat 3 10, mkRat 2 5⟩,
          ⟨1, 2, mkRat 1 20, mkRat 1 100⟩] (-1) (mkRat 1 5) (mkRat 1 5) 1 =
      Except.ok [true, false, true] := by
  with_unfolding_all rfl

/-- Claim C5: in a 1D sweep with sorted offsets, each emitted event carries
the position, in the offsets sequence, of the offset that first included the
pair: the boundary at that offset includes it, and the boundary at every
earlier offset does not. -/
theorem sweep1D_first_inclusion (distMat : List PairEntry) (offsets : List ℚ)
    (slope : Int) (x0 y0 x1 y1 : ℚ) (t : Nat)
    (hs : is_sorted offsets = true) (ht : 1 ≤ t) :
    ∀ i p k,
      ((i, p), k) ∈ threshold_iterate_1D distMat offsets slope x0 y0 x1 y1 t →
      (∃ off, offsets.get? k = some off ∧
          inside1D x0 y0 x1 y1 off p = true) ∧
      (∀ j off, j < k → offsets.get? j = some off →
          inside1D x0 y0 x1 y1 off p = false) := by
  intro i p k hmem
  unfold threshold_iterate_1D at hmem
  rw [sweepAux_eq_sweepPure _ _ ht] at hmem
  have h := (mem_sweepPure _ i p offsets 0 k _).mp hmem
  have hfh : firstHit (inside1D x0 y0 x1 y1) p offsets = some k := by
    have h2 := h.2.2
    simpa using h2
  exact firstHit_spec _ p offsets k hfh

/-- Witness for C5: a single pair at the origin, segment (0,0)-(1,0),
offsets [-1, 1]: the pair is first included at step 1. -/
theorem sweep1D_first_inclusion_witness :
    is_sorted [mkRat (-1) 1, mkRat 1 1] = true ∧
    1 ≤ 1 ∧
    ((0, (⟨0, 1, mkRat 0 1, mkRat 0 1⟩ : PairEntry)), 1) ∈
      threshold_iterate_1D [⟨0, 1, mkRat 0 1, mkRat 0 1⟩]
        [mkRat (-1) 1, mkRat 1 1] (-1) (mkRat 0 1) (mkRat 0 1) (mkRat 1 1)
        (mkRat 0 1) 1 ∧
    ((∃ off, ([mkRat (-1) 1, mkRat 1 1] : List ℚ).get? 1 = some off ∧
        inside1D (mkRat 0 1) (mkRat 0 1) (mkRat 1 1) (mkRat 0 1) off
          ⟨0, 1, mkRat 0 1, mkRat 0 1⟩ = true) ∧
      (∀ j off, j < 1 →
        ([mkRat (-1) 1, mkRat 1 1] : List ℚ).get? j = some off →
        inside1D (mkRat 0 1) (mkRat 0 1) (mkRat 1 1) (mkRat 0 1) off
          ⟨0, 1, mkRat 0 1, mkRat 0 1⟩ = false)) :=
  ⟨by decide, by decide, by with_unfolding_all decide,
    sweep1D_first_inclusion [⟨0, 1, mkRat 0 1, mkRat 0 1⟩]
      [mkRat (-1) 1, mkRat 1 1] (-1) (mkRat 0 1) (mkRat 0 1) (mkRat 1 1)
      (mkRat 0 1) 1 (by decide) (by decide) 0 ⟨0, 1, mkRat 0 1, mkRat 0 1⟩ 1
      (by with_unfolding_all decide)⟩

/-- Claim C8: the operations are deterministic: the sweeps and classify do
not depend on the thread-partition scheme (any two thread counts ≥ 1 give
identical outputs), and within one sweep call the events of each step are
emitted in ascending pair-index order. -/
theorem operations_deterministic (distMat : List PairEntry) (offsets : List ℚ)
    (slope : Int) (x0 y0 x1 y1 : ℚ) (t1 t2 : Nat) (xms : List ℚ)
    (x_max y_max : ℚ) (h1 : 1 ≤ t1) (h2 : 1 ≤ t2) :
    threshold_iterate_1D distMat offsets slope x0 y0 x1 y1 t1 =
        threshold_iterate_1D distMat offsets slope x0 y0 x1 y1 t2 ∧
      assignThreshold distMat slope x_max y_max t1 =
        assignThreshold distMat slope x_max y_max t2 ∧
      (threshold_iterate_1D distMat offsets slope x0 y0 x1 y1 t1).Pairwise
        (fun e e' => e.2 = e'.2 → e.1.1 < e'.1.1) ∧
      (threshold_iterate_2D distMat xms y_max).Pairwise
        (fun e e' => e.2 = e'.2 → e.1.1 < e'.1.1) := by
  refine ⟨?_, ?_, ?_, ?_⟩
  · unfold threshold_iterate_1D
    rw [sweepAux_eq_sweepPure _ _ h1, sweepAux_eq_sweepPure _ _ h2]
  · unfold assignThreshold assign_threshold
    by_cases h : x_max ≤ 0 ∨ y_max ≤ 0
    · rw [if_pos h, if_pos h]
    · rw [if_neg h, if_neg h, threadedMap_eq_map _ _ _ h1,
        threadedMap_eq_map _ _ _ h2]
  · unfold threshold_iterate_1D
    rw [sweepAux_eq_sweepPure _ _ h1]
    exact sweepPure_step_ordered _ _ _ _ (indexPairs_pairwise distMat 0)
  · unfold threshold_iterate_2D
    rw [sweepAux_eq_sweepPure _ _ (le_refl 1)]
    exact sweepPure_step_ordered _ _ _ _ (indexPairs_pairwise distMat 0)

/-- Witness for C8 with thread counts 1 and 4 on a concrete matrix. -/
theorem operations_deterministic_witness :
    1 ≤ 1 ∧ 1 ≤ 4 ∧
    (threshold_iterate_1D [⟨0, 1, mkRat 1 10, mkRat 1 20⟩] [mkRat 1 1] (-1)
          (mkRat 0 1) (mkRat 0 1) (mkRat 1 1) (mkRat 0 1) 1 =
        threshold_iterate_1D [⟨0, 1, mkRat 1 10, mkRat 1 20⟩] [mkRat 1 1] (-1)
          (mkRat 0 1) (mkRat 0 1) (mkRat 1 1) (mkRat 0 1) 4 ∧
      assignThreshold [⟨0, 1, mkRat 1 10, mkRat 1 20⟩] (-1) (mkRat 1 5)
          (mkRat 1 5) 1 =
        assignThreshold [⟨0, 1, mkRat 1 10, mkRat 1 20⟩] (-1) (mkRat 1 5)
          (mkRat 1 5) 4 ∧
      (threshold_iterate_1D [⟨0, 1, mkRat 1 10, mkRat 1 20⟩] [mkRat 1 1] (-1)
          (mkRat 0 1) (mkRat 0 1) (mkRat 1 1) (mkRat 0 1) 1).Pairwise
        (fun e e' => e.2 = e'.2 → e.1.1 < e'.1.1) ∧
      (threshold_iterate_2D [⟨0, 1, mkRat 1 10, mkRat 1 20⟩] [mkRat 1 5]
          (mkRat 1 5)).Pairwise
        (fun e e' => e.2 = e'.2 → e.1.1 < e'.1.1)) :=
  ⟨by decide, by decide,
    operations_deterministic [⟨0, 1, mkRat 1 10, mkRat 1 20⟩] [mkRat 1 1]
      (-1) (mkRat 0 1) (mkRat 0 1) (mkRat 1 1) (mkRat 0 1) 1 4 [mkRat 1 5]
      (mkRat 1 5) (mkRat 1 5) (by decide) (by decide)⟩

/-- Claim C3: in a sweep with a validly sorted threshold sequence over a
matrix whose (row, col) pairs are distinct, every pair appears in the output
network_coo at most once: committed at one step is terminal, the pair is
never reported at a later step. -/
theorem sweep_pair_committed_once (distMat : List PairEntry)
    (offsets : List ℚ) (slope : Int) (x0 y0 x1 y1 : ℚ) (t : Nat)
    (xms : List ℚ) (y_max : ℚ)
    (hrc : distMat.Pairwise (fun p q => p.row ≠ q.row ∨ p.col ≠ q.col))
    (hs1 : is_sorted offsets = true) (hs2 : is_sorted xms = true)
    (ht : 1 ≤ t) :
    (networkCoo
        (threshold_iterate_1D distMat offsets slope x0 y0 x1 y1 t)).Pairwise
        (fun u v => (u.1, u.2.1) ≠ (v.1, v.2.1)) ∧
      (networkCoo (threshold_iterate_2D distMat xms y_max)).Pairwise
        (fun u v => (u.1, u.2.1) ≠ (v.1, v.2.1)) := by
  constructor
  · unfold threshold_iterate_1D
    rw [sweepAux_eq_sweepPure _ _ ht]
    exact networkCoo_pairwise _ _ hrc _
  · unfold threshold_iterate_2D
    rw [sweepAux_eq_sweepPure _ _ (le_refl 1)]
    exact networkCoo_pairwise _ _ hrc _

/-- Witness for C3 on a concrete two-pair matrix. -/
theorem sweep_pair_committed_once_witness :
    ([⟨0, 1, mkRat 1 10, mkRat 1 20⟩,
        ⟨0, 2, mkRat 3 10, mkRat 2 5⟩] : List PairEntry).Pairwise
      (fun p q => p.row ≠ q.row ∨ p.col ≠ q.col) ∧
    is_sorted [mkRat 1 1] = true ∧
    is_sorted [mkRat 1 5] = true ∧
    1 ≤ 1 ∧
    ((networkCoo
        (threshold_iterate_1D
          [⟨0, 1, mkRat 1 10, mkRat 1 20⟩, ⟨0, 2, mkRat 3 10, mkRat 2 5⟩]
          [mkRat 1 1] (-1) (mkRat 0 1) (mkRat 0 1) (mkRat 1 1) (mkRat 0 1)
          1)).Pairwise (fun u v => (u.1, u.2.1) ≠ (v.1, v.2.1)) ∧
      (networkCoo
        (threshold_iterate_2D
          [⟨0, 1, mkRat 1 10, mkRat 1 20⟩, ⟨0, 2, mkRat 3 10, mkRat 2 5⟩]
          [mkRat 1 5] (mkRat 1 5))).Pairwise
        (fun u v => (u.1, u.2.1) ≠ (v.1, v.2.1))) :=
  ⟨by decide, by decide, by decide, by decide,
    sweep_pair_committed_once
      [⟨0, 1, mkRat 1 10, mkRat 1 20⟩, ⟨0, 2, mkRat 3 10, mkRat 2 5⟩]
      [mkRat 1 1] (-1) (mkRat 0 1) (mkRat 0 1) (mkRat 1 1) (mkRat 0 1) 1
      [mkRat 1 5] (mkRat 1 5) (by decide) (by decide) (by decide)
      (by decide)⟩

/-- Claim C4: for a validly sorted, positive x_max sequence over a
nonnegative distance matrix, the union over all steps of the pairs emitted
by the 2D sweep is exactly the set of pairs that classify marks included at
the final (most permissive, last-in-sequence) boundary. -/
theorem sweep_completeness (distMat : List PairEntry) (xms : List ℚ)
    (y_max lastXm : ℚ) (hs : is_sorted xms = true)
    (hlast : xms.getLast? = some lastXm) (hpos : ∀ xm ∈ xms, 0 < xm)
    (hym : 0 < y_max) (hx : ∀ p ∈ distMat, 0 ≤ p.x) :
    ∃ v, assignThreshold distMat (-1) lastXm y_max 1 = Except.ok v ∧
      (∀ e ∈ threshold_iterate_2D distMat xms y_max,
        distMat.get? e.1.1 = some e.1.2) ∧
      (∀ i p, distMat.get? i = some p →
        ((∃ k, ((i, p), k) ∈ threshold_iterate_2D distMat xms y_max) ↔
          v.get? i = some true)) := by
  have hlastmem : lastXm ∈ xms := by
    rcases List.getLast?_eq_some_iff.mp hlast with ⟨ys, rfl⟩
    simp
  have hlastpos : 0 < lastXm := hpos _ hlastmem
  refine ⟨distMat.map (insideBoundary lastXm y_max), ?_, ?_, ?_⟩
  · unfold assignThreshold assign_threshold
    rw [if_neg (by simp only [not_or, not_le]; exact ⟨hlastpos, hym⟩),
      threadedMap_eq_map _ _ _ (le_refl 1)]
  · unfold threshold_iterate_2D
    rw [sweepAux_eq_sweepPure _ _ (le_refl 1)]
    intro e he
    have hm := (sweepPure_subset _ _ _ _ e he).1
    rcases e with ⟨⟨i, p⟩, k⟩
    have h := (mem_indexPairs i p distMat 0).mp hm
    simpa using h.2
  · intro i p hget
    unfold threshold_iterate_2D
    rw [sweepAux_eq_sweepPure _ _ (le_refl 1)]
    have hmap : (distMat.map (insideBoundary lastXm y_max)).get? i =
        some (insideBoundary lastXm y_max p) := by
      rw [List.get?_map, hget]
      rfl
    rw [hmap]
    constructor
    · rintro ⟨k, hk⟩
      have h := (mem_sweepPure _ i p xms 0 k _).mp hk
      have hfh : firstHit (fun xm q => insideBoundary xm y_max q) p xms =
          some k := by
        have h2 := h.2.2
        simpa using h2
      rcases (firstHit_spec _ p xms k hfh).1 with ⟨th, hth_get, hth⟩
      have hthmem : th ∈ xms := List.get?_mem hth_get
      have hth_le : th ≤ lastXm :=
        is_sorted_le_getLast xms hs th hthmem lastXm hlast
      have hmono := insideBoundary_mono p (hx p (List.get?_mem hget))
        (hpos th hthmem) (le_of_lt hym) hth_le hth
      rw [hmono]
    · intro hsome
      have htrue : insideBoundary lastXm y_max p = true :=
        Option.some.inj hsome
      cases hfh : firstHit (fun xm q => insideBoundary xm y_max q) p xms with
      | none =>
        have hall := (firstHit_eq_none _ p xms).mp hfh
        have hfalse := hall lastXm hlastmem
        simp only at hfalse
        rw [htrue] at hfalse
        exact absurd hfalse (by simp)
      | some m =>
        refine ⟨m, (mem_sweepPure _ i p xms 0 m _).mpr
          ⟨?_, Nat.zero_le m, by simpa using hfh⟩⟩
        exact (mem_indexPairs i p distMat 0).mpr
          ⟨Nat.zero_le i, by simpa using hget⟩

/-- Witness for C4 on the concrete three-pair matrix with x_max sequence
[0.1, 0.2] and y_max = 0.2. -/
theorem sweep_completeness_witness :
    is_sorted [mkRat 1 10, mkRat 1 5] = true ∧
    ([mkRat 1 10, mkRat 1 5] : List ℚ).getLast? = some (mkRat 1 5) ∧
    (∀ xm ∈ ([mkRat 1 10, mkRat 1 5] : List ℚ), 0 < xm) ∧
    (0 : ℚ) < mkRat 1 5 ∧
    (∀ p ∈ ([⟨0, 1, mkRat 1 10, mkRat 1 20⟩, ⟨0, 2, mkRat 3 10, mkRat 2 5⟩,
        ⟨1, 2, mkRat 1 20, mkRat 1 100⟩] : List PairEntry), 0 ≤ p.x) ∧
    (∃ v,
      assignThreshold
          [⟨0, 1, mkRat 1 10, mkRat 1 20⟩, ⟨0, 2, mkRat 3 10, mkRat 2 5⟩,
            ⟨1, 2, mkRat 1 20, mkRat 1 100⟩] (-1) (mkRat 1 5) (mkRat 1 5) 1 =
        Except.ok v ∧
      (∀ e ∈ threshold_iterate_2D
          [⟨0, 1, mkRat 1 10, mkRat 1 20⟩, ⟨0, 2, mkRat 3 10, mkRat 2 5⟩,
            ⟨1, 2, mkRat 1 20, mkRat 1 100⟩] [mkRat 1 10, mkRat 1 5]
          (mkRat 1 5),
        ([⟨0, 1, mkRat 1 10, mkRat 1 20⟩, ⟨0, 2, mkRat 3 10, mkRat 2 5⟩,
          ⟨1, 2, mkRat 1 20, mkRat 1 100⟩] : List PairEntry).get? e.1.1 =
          some e.1.2) ∧
      (∀ i p,
        ([⟨0, 1, mkRat 1 10, mkRat 1 20⟩, ⟨0, 2, mkRat 3 10, mkRat 2 5⟩,
          ⟨1, 2, mkRat 1 20, mkRat 1 100⟩] : List PairEntry).get? i =
          some p →
        ((∃ k, ((i, p), k) ∈ threshold_iterate_2D
            [⟨0, 1, mkRat 1 10, mkRat 1 20⟩, ⟨0, 2, mkRat 3 10, mkRat 2 5⟩,
              ⟨1, 2, mkRat 1 20, mkRat 1 100⟩] [mkRat 1 10, mkRat 1 5]
            (mkRat 1 5)) ↔
          v.get? i = some true))) :=
  ⟨by decide, by decide, by with_unfolding_all decide,
    by with_unfolding_all decide, by with_unfolding_all decide,
    sweep_completeness
      [⟨0, 1, mkRat 1 10, mkRat 1 20⟩, ⟨0, 2, mkRat 3 10, mkRat 2 5⟩,
        ⟨1, 2, mkRat 1 20, mkRat 1 100⟩] [mkRat 1 10, mkRat 1 5]
      (mkRat 1 5) (mkRat 1 5) (by decide) (by decide)
      (by with_unfolding_all decide) (by with_unfolding_all decide)
      (by with_unfolding_all decide)⟩

end PopPunk
